import Mathlib

/-!
Shallow embedding of the xpkg package-marshaling pipeline
(`internal/xpkg/dep/marshaler/xpkg/marshaler.go`).

Modelling conventions:
* Go pointers that the code may dereference while nil are `Option`;
  a nil dereference is modelled by the `BuildResult.panicked` outcome.
* Schema documents (`JSONSchemaProps`) are opaque tokens: the external
  schema-compilation collaborator is modelled as tagging a validator with
  the document it was compiled from.  JSON (de)serialization of embedded
  raw schemas is modelled as the identity on those tokens.
* The Go `map[schema.GroupVersionKind]*validate.SchemaValidator` is an
  association list with key-unique overwrite-on-insert semantics.
* The generic package decoder and the linters are external collaborators;
  they enter the model as function parameters (`decode`, `lint`).
-/

/-- Opaque schema document (`JSONSchemaProps`); only identity matters. -/
structure JSONSchemaProps where
  id : Nat
deriving DecidableEq, Repr

/-- Model of `v1beta1` / internal `CustomResourceValidation`: an optional pointer to a
schema document (`OpenAPIV3Schema *JSONSchemaProps`). -/
structure CustomResourceValidation where
  openAPIV3Schema : Option JSONSchemaProps
deriving DecidableEq, Repr

/-- A compiled schema validator, tagged with the (possibly absent) schema
document it was compiled from. -/
structure SchemaValidator where
  source : Option JSONSchemaProps
deriving DecidableEq, Repr

/-- Model of `validation.NewSchemaValidator`: accepts a possibly-nil
`*CustomResourceValidation` and compiles it (nil-safe in the library). -/
def NewSchemaValidator (v : Option CustomResourceValidation) : SchemaValidator :=
  { source := v.bind (fun cv => cv.openAPIV3Schema) }

/-- Model of `newV1SchemaValidator`: compiles a (dereferenced) v1 `JSONSchemaProps`
into a validator. -/
def newV1SchemaValidator (p : JSONSchemaProps) : SchemaValidator :=
  { source := some p }

/-- Model of `schema.GroupVersionKind`. -/
structure GroupVersionKind where
  group : String
  version : String
  kind : String
deriving DecidableEq, Repr

/-- Model of `gvk(group, version, kind)` helper from the source. -/
def gvk (group version kind : String) : GroupVersionKind :=
  { group := group, version := version, kind := kind }

/-- The `map[schema.GroupVersionKind]*validate.SchemaValidator` accumulator. -/
abbrev GvkMap := List (GroupVersionKind × SchemaValidator)

/-- Go map assignment `acc[k] = v`: the existing entry for `k` (if any) is
replaced in place, otherwise a new entry is added. -/
def GvkMap.insert : GvkMap → GroupVersionKind → SchemaValidator → GvkMap
  | [], k, v => [(k, v)]
  | p :: t, k, v => if p.1 = k then (k, v) :: t else p :: GvkMap.insert t k v

/-- Go map lookup `m[k]`. -/
def GvkMap.find (m : GvkMap) (k : GroupVersionKind) : Option SchemaValidator :=
  (m.find? (fun p => p.1 = k)).map (fun p => p.2)

/-- Model of `CustomResourceDefinitionNames` (only the kind is used by the builder). -/
structure CRDNames where
  kind : String
deriving DecidableEq, Repr

/-- A declared version of a `v1beta1` CRD: name plus optional per-version
validation (`Schema *CustomResourceValidation`, nil-safe where used). -/
structure V1Beta1CRDVersion where
  name : String
  schema : Option CustomResourceValidation
deriving DecidableEq, Repr

/-- Model of `v1beta1ext.CustomResourceDefinition.Spec` (fields the builder reads;
conversion to the internal representation is field-preserving). -/
structure V1Beta1CRDSpec where
  group : String
  names : CRDNames
  validation : Option CustomResourceValidation
  versions : List V1Beta1CRDVersion
deriving DecidableEq, Repr

/-- Model of `v1beta1ext.CustomResourceDefinition`. -/
structure V1Beta1CRD where
  spec : V1Beta1CRDSpec
deriving DecidableEq, Repr

/-- v1 `CustomResourceValidation`: `OpenAPIV3Schema *JSONSchemaProps`,
dereferenced without a nil check by the builder. -/
structure V1CustomResourceValidation where
  openAPIV3Schema : Option JSONSchemaProps
deriving DecidableEq, Repr

/-- A declared version of a v1 CRD (`Schema *CustomResourceValidation`). -/
structure V1CRDVersion where
  name : String
  schema : Option V1CustomResourceValidation
deriving DecidableEq, Repr

/-- Model of `v1ext.CustomResourceDefinition.Spec` (fields the builder reads). -/
structure V1CRDSpec where
  group : String
  names : CRDNames
  versions : List V1CRDVersion
deriving DecidableEq, Repr

/-- Model of `v1ext.CustomResourceDefinition`. -/
structure V1CRD where
  spec : V1CRDSpec
deriving DecidableEq, Repr

/-- XRD `CompositeResourceValidation`: the embedded raw schema bytes,
modelled as the already-decoded document (JSON decode is external). -/
structure CompositeResourceValidation where
  openAPIV3Schema : JSONSchemaProps
deriving DecidableEq, Repr

/-- A declared version of an XRD (`Schema *CompositeResourceValidation`,
dereferenced without a nil check by the builder). -/
structure XRDVersion where
  name : String
  schema : Option CompositeResourceValidation
deriving DecidableEq, Repr

/-- Model of `CompositeResourceDefinition.Spec` (fields the builder reads); the
v1beta1 and v1 XRD shapes carry the same data and are processed alike. -/
structure XRDSpec where
  group : String
  names : CRDNames
  versions : List XRDVersion
deriving DecidableEq, Repr

/-- Model of `CompositeResourceDefinition` (either API generation). -/
structure CompositeResourceDefinition where
  spec : XRDSpec
deriving DecidableEq, Repr

/-- A body object, as dispatched by the `switch` in `finalizePkg`:
the four recognized shapes plus everything else (`default` arm). -/
inductive PkgObject where
  | crdV1Beta1 (c : V1Beta1CRD)
  | crdV1 (c : V1CRD)
  | xrdV1Beta1 (x : CompositeResourceDefinition)
  | xrdV1 (x : CompositeResourceDefinition)
  | unknown (tag : String)
deriving DecidableEq, Repr

/-- The error constants of the marshaler. -/
inductive MarshalError where
  | failedToParsePkgYaml
  | lintPackage
  | openPackageStream
  | failedToAcquireDigest
  | failedToConvertMetaToPackage
  | invalidPath
  | notExactlyOneMeta
  | objectNotKnownType
deriving DecidableEq, Repr

/-- Outcome of a Go computation that may return an error or crash on a nil
pointer dereference (`panicked`). -/
inductive BuildResult (α : Type) where
  | panicked
  | error (e : MarshalError)
  | ok (a : α)
deriving DecidableEq, Repr

/-- Model of `validatorsFromV1Beta1CRD`: if the top-level `Validation` is present,
compile it once and register it for every declared version; otherwise
compile each version's own (possibly nil, nil-safe) schema. -/
def validatorsFromV1Beta1CRD (c : V1Beta1CRD) (acc : GvkMap) :
    BuildResult GvkMap :=
  match c.spec.validation with
  | some val =>
    let sv := NewSchemaValidator (some val)
    .ok (c.spec.versions.foldl
      (fun m v => m.insert (gvk c.spec.group v.name c.spec.names.kind) sv) acc)
  | none =>
    .ok (c.spec.versions.foldl
      (fun m v => m.insert (gvk c.spec.group v.name c.spec.names.kind)
        (NewSchemaValidator v.schema)) acc)

/-- The double dereference `*v.Schema.OpenAPIV3Schema` of the v1 builder:
`none` models the nil-pointer panic (either pointer nil). -/
def derefV1Schema (v : V1CRDVersion) : Option JSONSchemaProps :=
  match v.schema with
  | none => none
  | some s => s.openAPIV3Schema

/-- Per-version loop of `validatorsFromV1CRD`. -/
def validatorsFromV1CRDAux (group kind : String) :
    List V1CRDVersion → GvkMap → BuildResult GvkMap
  | [], acc => .ok acc
  | v :: rest, acc =>
    match derefV1Schema v with
    | none => .panicked
    | some props =>
      validatorsFromV1CRDAux group kind rest
        (acc.insert (gvk group v.name kind) (newV1SchemaValidator props))

/-- Model of `validatorsFromV1CRD`: each declared version's schema is dereferenced
unconditionally and compiled. -/
def validatorsFromV1CRD (c : V1CRD) (acc : GvkMap) : BuildResult GvkMap :=
  validatorsFromV1CRDAux c.spec.group c.spec.names.kind c.spec.versions acc

/-- Per-version loop shared by `validatorsFromV1Beta1XRD` and
`validatorsFromV1XRD`: dereference `v.Schema` (nil panics), decode the raw
schema, compile. -/
def validatorsFromXRDAux (group kind : String) :
    List XRDVersion → GvkMap → BuildResult GvkMap
  | [], acc => .ok acc
  | v :: rest, acc =>
    match v.schema with
    | none => .panicked
    | some s =>
      validatorsFromXRDAux group kind rest
        (acc.insert (gvk group v.name kind)
          (newV1SchemaValidator s.openAPIV3Schema))

/-- Model of `validatorsFromV1Beta1XRD`. -/
def validatorsFromV1Beta1XRD (x : CompositeResourceDefinition) (acc : GvkMap) :
    BuildResult GvkMap :=
  validatorsFromXRDAux x.spec.group x.spec.names.kind x.spec.versions acc

/-- Model of `validatorsFromV1XRD`. -/
def validatorsFromV1XRD (x : CompositeResourceDefinition) (acc : GvkMap) :
    BuildResult GvkMap :=
  validatorsFromXRDAux x.spec.group x.spec.names.kind x.spec.versions acc

/-- The validator-building loop of `finalizePkg`: dispatch on the concrete
shape of each body object; an unrecognized shape is a hard error. -/
def buildValidators : List PkgObject → GvkMap → BuildResult GvkMap
  | [], acc => .ok acc
  | o :: rest, acc =>
    let r : BuildResult GvkMap :=
      match o with
      | .crdV1Beta1 c => validatorsFromV1Beta1CRD c acc
      | .crdV1 c => validatorsFromV1CRD c acc
      | .xrdV1Beta1 x => validatorsFromV1Beta1XRD x acc
      | .xrdV1 x => validatorsFromV1XRD x acc
      | .unknown _ => .error .objectNotKnownType
    match r with
    | .panicked => .panicked
    | .error e => .error e
    | .ok m => buildValidators rest m

/-- A source dependency (`xpmetav1.Dependency`): two optional package
references plus a version constraint string. -/
structure MetaDependency where
  provider : Option String
  configuration : Option String
  version : String
deriving DecidableEq, Repr

/-- Model of `v1beta1.PackageType` (its Go zero value is the empty string, modelled
as `none` on the field using it). -/
inductive PackageType where
  | provider
  | configuration
deriving DecidableEq, Repr

/-- A normalized dependency (`v1beta1.Dependency`). -/
structure Dependency where
  package : String
  type : Option PackageType
  constraints : String
deriving DecidableEq, Repr

/-- Model of `convertToV1beta1`: starts from a zero-value dependency carrying the
version constraint, then fills package/type from whichever reference is
exclusively set (two sequential, mutually exclusive conditionals). -/
def convertToV1beta1 (d : MetaDependency) : Dependency :=
  let betaD : Dependency := { package := "", type := none, constraints := d.version }
  let betaD :=
    match d.provider, d.configuration with
    | some p, none => { betaD with package := p, type := some PackageType.provider }
    | _, _ => betaD
  match d.configuration, d.provider with
  | some c, none => { betaD with package := c, type := some PackageType.configuration }
  | _, _ => betaD

/-- The single meta object of a package.  `pkg` is a meta object that
`xpkg.TryConvertToPkg` converts to a package description exposing its
dependency list; `notAPkg` is one it rejects.  Both carry their kind. -/
inductive MetaObject where
  | pkg (kind : String) (deps : List MetaDependency)
  | notAPkg (kind : String)
deriving DecidableEq, Repr

/-- Kind accessor of a meta object (`GetObjectKind().GroupVersionKind().Kind`). -/
def MetaObject.kind : MetaObject → String
  | .pkg k _ => k
  | .notAPkg k => k

/-- Model of `determineDeps`: convert the meta object to a package description, then
convert each declared dependency element-wise, preserving order. -/
def determineDeps (o : MetaObject) : Except MarshalError (List Dependency) :=
  match o with
  | .notAPkg _ => .error .failedToConvertMetaToPackage
  | .pkg _ deps => .ok (deps.map convertToV1beta1)

/-- Model of `dockerhub`, the default public registry host constant. -/
def dockerhub : String := "index.docker.io"

/-- Model of `derivePkgName`: the package name expected in a meta file. -/
def derivePkgName (registry repo : String) : String :=
  if registry ≠ dockerhub then registry ++ "/" ++ repo else repo

/-- The decoded generic package (`pkg.GetMeta()` / `pkg.GetObjects()`). -/
structure GenericPackage where
  metas : List MetaObject
  objects : List PkgObject
deriving DecidableEq, Repr

/-- Which linter `parse` selects. -/
inductive LinterKind where
  | configuration
  | provider
deriving DecidableEq, Repr

/-- Model of `xpmetav1.ConfigurationKind`. -/
def ConfigurationKind : String := "Configuration"

/-- The classification conditional of `parse`: kind `Configuration` selects
the Configuration linter and package type, anything else the Provider pair. -/
def classify (kind : String) : PackageType × LinterKind :=
  if kind = ConfigurationKind then (PackageType.configuration, LinterKind.configuration)
  else (PackageType.provider, LinterKind.provider)

/-- The marshaler's output value (`ParsedPackage`); fields not yet filled by
`parse` keep their Go zero values until `finalizePkg` sets them. -/
structure ParsedPackage where
  metaObj : MetaObject
  objs : List PkgObject
  ptype : PackageType
  deps : List Dependency := []
  gvkToV : GvkMap := []
  depName : String := ""
  reg : String := ""
  sha : String := ""
  ver : String := ""
deriving DecidableEq, Repr

/-- Model of `parse`: decode the stream (`none` models a yaml decode failure), require
exactly one meta object, classify by its kind, lint with the selected
linter (`lint` is the external linter collaborator). -/
def parse (lint : LinterKind → GenericPackage → Bool)
    (decoded : Option GenericPackage) : Except MarshalError ParsedPackage :=
  match decoded with
  | none => .error .failedToParsePkgYaml
  | some pkg =>
    match pkg.metas with
    | [meta] =>
      let pl := classify meta.kind
      if lint pl.2 pkg then
        .ok { metaObj := meta, objs := pkg.objects, ptype := pl.1 }
      else .error .lintPackage
    | _ => .error .notExactlyOneMeta

/-- Model of `finalizePkg`: extract dependencies, build the validator index over the
body objects, then assemble the identity fields. -/
def finalizePkg (reg repo ver digest : String) (pkg : ParsedPackage) :
    BuildResult ParsedPackage :=
  match determineDeps pkg.metaObj with
  | .error e => .error e
  | .ok deps =>
    match buildValidators pkg.objs [] with
    | .panicked => .panicked
    | .error e => .error e
    | .ok v =>
      .ok { pkg with deps := deps, gvkToV := v,
                     depName := derivePkgName reg repo,
                     reg := reg, sha := digest, ver := ver }

/-- Model of `digestPrefix`, the digest-marker filename prefix constant
(source name: digest + Prefix; renamed only for lexical reasons). -/
def digestMarker : String := "sha256:"

/-- Model of `strings.Split(s, sep)` for a single-character separator, on the
character list of the string. -/
def splitOnChar (sep : Char) : List Char → List (List Char)
  | [] => [[]]
  | c :: rest =>
    match splitOnChar sep rest with
    | [] => if c = sep then [[], []] else [[c]]
    | h :: t => if c = sep then [] :: h :: t else (c :: h) :: t

/-- Model of `strings.Split(s, sep)` for a single-character separator. -/
def stringSplitOnChar (sep : Char) (s : String) : List String :=
  (splitOnChar sep s.data).map (fun l => String.mk l)

/-- Model of `strings.HasPrefix(s, digestPrefix)`. -/
def stringHasDigestMarker (s : String) : Bool :=
  List.isPrefixOf digestMarker.data s.data

/-- Model of `filepath.Base` for slash-separated paths (trailing slashes trimmed,
empty path gives "."; the all-slash edge case is not distinguished). -/
def filepathBase (p : String) : String :=
  match ((stringSplitOnChar '/' p).filter (fun s => s ≠ "")).getLast? with
  | some b => b
  | none => "."

/-- A filesystem entry visited by the directory walk, in walk order. -/
structure DirEntry where
  path : String
  isDir : Bool
deriving DecidableEq, Repr

/-- Model of `parser.NewFsReadCloser` with `SkipDirs()` and `skipDigest(&digest)`:
directories are skipped; a file whose base name starts with the digest
marker is skipped and its base name overwrites the captured digest; every
other file joins the stream.  Returns (stream file paths, digest). -/
def acquireFromDir (entries : List DirEntry) : List String × String :=
  entries.foldl
    (fun acc e =>
      if e.isDir then acc
      else if stringHasDigestMarker (filepathBase e.path) then
        (acc.1, filepathBase e.path)
      else (acc.1 ++ [e.path], acc.2))
    ([], "")

/-- Model of `FromDir`: require a `<directory>@<version>` path, walk the directory,
decode the stream (`decode` is the external package decoder), parse, and
finalize with the captured digest and the version from the path. -/
def FromDir (lint : LinterKind → GenericPackage → Bool)
    (decode : List String → Option GenericPackage)
    (entries : List DirEntry) (path reg repo : String) :
    BuildResult ParsedPackage :=
  match stringSplitOnChar '@' path with
  | [_, ver] =>
    let acq := acquireFromDir entries
    match parse lint (decode acq.1) with
    | .error e => .error e
    | .ok pkg => finalizePkg reg repo ver acq.2 pkg
  | _ => .error .invalidPath

/-- A container image input: its digest (if computable) and the decoded
package stream (`none` outer: stream file missing; inner option: decode). -/
structure ImageInput where
  digest : Option String
  stream : Option (Option GenericPackage)
deriving DecidableEq, Repr

/-- Model of `FromImage`: acquire the digest, open the stream file, parse, finalize. -/
def FromImage (lint : LinterKind → GenericPackage → Bool)
    (reg repo ver : String) (i : ImageInput) : BuildResult ParsedPackage :=
  match i.digest with
  | none => .error .failedToAcquireDigest
  | some d =>
    match i.stream with
    | none => .error .openPackageStream
    | some decoded =>
      match parse lint decoded with
      | .error e => .error e
      | .ok pkg => finalizePkg reg repo ver d pkg

/-- The (key, validator) insertions `validatorsFromV1Beta1CRD` performs,
in order. -/
def v1beta1CRDTrace (c : V1Beta1CRD) : List (GroupVersionKind × SchemaValidator) :=
  match c.spec.validation with
  | some val =>
    c.spec.versions.map (fun v =>
      (gvk c.spec.group v.name c.spec.names.kind, NewSchemaValidator (some val)))
  | none =>
    c.spec.versions.map (fun v =>
      (gvk c.spec.group v.name c.spec.names.kind, NewSchemaValidator v.schema))

/-- The (key, validator) insertions the v1 CRD per-version loop performs, in
order, with the same panic outcome but no overwriting. -/
def v1CRDTrace (group kind : String) :
    List V1CRDVersion → BuildResult (List (GroupVersionKind × SchemaValidator))
  | [] => .ok []
  | v :: rest =>
    match derefV1Schema v with
    | none => .panicked
    | some props =>
      match v1CRDTrace group kind rest with
      | .panicked => .panicked
      | .error e => .error e
      | .ok l => .ok ((gvk group v.name kind, newV1SchemaValidator props) :: l)

/-- The (key, validator) insertions the XRD per-version loop performs, in
order, with the same panic outcome but no overwriting. -/
def xrdTrace (group kind : String) :
    List XRDVersion → BuildResult (List (GroupVersionKind × SchemaValidator))
  | [] => .ok []
  | v :: rest =>
    match v.schema with
    | none => .panicked
    | some s =>
      match xrdTrace group kind rest with
      | .panicked => .panicked
      | .error e => .error e
      | .ok l =>
        .ok ((gvk group v.name kind, newV1SchemaValidator s.openAPIV3Schema) :: l)

/-- The sequence of (key, validator) insertions the whole building pass
performs, in order, with the same panic/error outcomes but no overwriting. -/
def validatorTrace : List PkgObject → BuildResult (List (GroupVersionKind × SchemaValidator))
  | [] => .ok []
  | o :: rest =>
    let r : BuildResult (List (GroupVersionKind × SchemaValidator)) :=
      match o with
      | .crdV1Beta1 c => .ok (v1beta1CRDTrace c)
      | .crdV1 c => v1CRDTrace c.spec.group c.spec.names.kind c.spec.versions
      | .xrdV1Beta1 x => xrdTrace x.spec.group x.spec.names.kind x.spec.versions
      | .xrdV1 x => xrdTrace x.spec.group x.spec.names.kind x.spec.versions
      | .unknown _ => .error .objectNotKnownType
    match r with
    | .panicked => .panicked
    | .error e => .error e
    | .ok l =>
      match validatorTrace rest with
      | .panicked => .panicked
      | .error e => .error e
      | .ok l2 => .ok (l ++ l2)

/-- Whether processing a single body object is free of nil-pointer
dereferences (the v1 CRD and XRD loops dereference per-version schema
pointers unconditionally). -/
def panicFree : PkgObject → Bool
  | .crdV1 c => c.spec.versions.all (fun v => (derefV1Schema v).isSome)
  | .xrdV1Beta1 x => x.spec.versions.all (fun v => v.schema.isSome)
  | .xrdV1 x => x.spec.versions.all (fun v => v.schema.isSome)
  | _ => true

/-- The last validator the pass compiled for key `k` among the insertion
sequence `l` (scanning left to right, keeping the latest). -/
def lastVal (l : List (GroupVersionKind × SchemaValidator))
    (k : GroupVersionKind) : Option SchemaValidator :=
  l.foldl (fun acc p => if p.1 = k then some p.2 else acc) none

/-! ### Helper lemmas about the GVK → validator map -/

theorem find_cons (a : GroupVersionKind × SchemaValidator) (t : GvkMap)
    (k : GroupVersionKind) :
    GvkMap.find (a :: t) k = if a.1 = k then some a.2 else GvkMap.find t k := by
  by_cases h : a.1 = k <;> simp [GvkMap.find, List.find?_cons, h]

theorem find_insert (m : GvkMap) (k' k : GroupVersionKind) (v : SchemaValidator) :
    GvkMap.find (GvkMap.insert m k' v) k =
      if k' = k then some v else GvkMap.find m k := by
  induction m with
  | nil => simp [GvkMap.insert, find_cons, GvkMap.find]
  | cons a t ih =>
    unfold GvkMap.insert
    by_cases ha : a.1 = k'
    · rw [if_pos ha, find_cons, find_cons]
      by_cases h : k' = k
      · simp [h]
      · have hak : ¬ a.1 = k := by rw [ha]; exact h
        simp [h, hak]
    · rw [if_neg ha, find_cons, find_cons, ih]
      by_cases hk : a.1 = k
      · have h2 : ¬ k' = k := fun hh => ha (by rw [hh, hk])
        simp [hk, h2]
      · simp [hk]

theorem foldl_insert_find (l : List (GroupVersionKind × SchemaValidator)) :
    ∀ (m : GvkMap) (k : GroupVersionKind),
      GvkMap.find (l.foldl (fun acc p => GvkMap.insert acc p.1 p.2) m) k =
        l.foldl (fun acc p => if p.1 = k then some p.2 else acc) (GvkMap.find m k) := by
  induction l with
  | nil => intro m k; rfl
  | cons p t ih =>
    intro m k
    simp only [List.foldl_cons]
    rw [ih, find_insert]

theorem find_foldl_insert_nil (l : List (GroupVersionKind × SchemaValidator))
    (k : GroupVersionKind) :
    GvkMap.find (l.foldl (fun acc p => GvkMap.insert acc p.1 p.2) ([] : GvkMap)) k =
      lastVal l k := by
  rw [foldl_insert_find]; rfl

theorem insert_fresh (m : GvkMap) (k : GroupVersionKind) (v : SchemaValidator)
    (h : GvkMap.find m k = none) : GvkMap.insert m k v = m ++ [(k, v)] := by
  induction m with
  | nil => rfl
  | cons a t ih =>
    rw [find_cons] at h
    by_cases ha : a.1 = k
    · simp [ha] at h
    · rw [if_neg ha] at h
      unfold GvkMap.insert
      rw [if_neg ha, ih h]
      simp

theorem find_append (m1 m2 : GvkMap) (k : GroupVersionKind) :
    GvkMap.find (m1 ++ m2) k = (GvkMap.find m1 k).or (GvkMap.find m2 k) := by
  induction m1 with
  | nil => simp [GvkMap.find]
  | cons a t ih =>
    rw [List.cons_append, find_cons, find_cons]
    by_cases h : a.1 = k <;> simp [h, ih]

theorem foldl_insert_fresh :
    ∀ (l : List (GroupVersionKind × SchemaValidator)) (acc : GvkMap),
      (l.map Prod.fst).Nodup → (∀ p ∈ l, GvkMap.find acc p.1 = none) →
      l.foldl (fun m p => GvkMap.insert m p.1 p.2) acc = acc ++ l := by
  intro l
  induction l with
  | nil => intro acc _ _; simp
  | cons p t ih =>
    intro acc hnd hf
    simp only [List.foldl_cons]
    have hfresh := hf p (List.mem_cons_self p t)
    rw [insert_fresh acc p.1 p.2 hfresh]
    rw [List.map_cons, List.nodup_cons] at hnd
    rw [ih (acc ++ [p]) hnd.2 ?fresh]
    · simp
    case fresh =>
      intro q hq
      rw [find_append, hf q (List.mem_cons_of_mem _ hq), find_cons]
      have hqp : ¬ p.1 = q.1 := fun heq => hnd.1 (by
        rw [heq]; exact List.mem_map_of_mem Prod.fst hq)
      simp [GvkMap.find, hqp]

theorem find_all_same (l : List (GroupVersionKind × SchemaValidator))
    (sv : SchemaValidator) (k : GroupVersionKind)
    (hall : ∀ p ∈ l, p.2 = sv) (hk : k ∈ l.map Prod.fst) :
    GvkMap.find l k = some sv := by
  induction l with
  | nil => simp at hk
  | cons a t ih =>
    rw [find_cons]
    by_cases h : a.1 = k
    · rw [if_pos h, hall a (List.mem_cons_self a t)]
    · rw [if_neg h]
      rw [List.map_cons, List.mem_cons] at hk
      rcases hk with hk | hk
      · exact absurd hk.symm h
      · exact ih (fun p hp => hall p (List.mem_cons_of_mem _ hp)) hk

/-! ### Correspondence between the building pass and its insertion trace -/

theorem v1beta1CRD_eq_trace (c : V1Beta1CRD) (acc : GvkMap) :
    validatorsFromV1Beta1CRD c acc =
      .ok ((v1beta1CRDTrace c).foldl (fun m p => GvkMap.insert m p.1 p.2) acc) := by
  unfold validatorsFromV1Beta1CRD v1beta1CRDTrace
  cases c.spec.validation with
  | some val => simp [List.foldl_map]
  | none => simp [List.foldl_map]

theorem v1CRDAux_eq_trace (group kind : String) :
    ∀ (vs : List V1CRDVersion) (acc : GvkMap),
      validatorsFromV1CRDAux group kind vs acc =
        match v1CRDTrace group kind vs with
        | .panicked => .panicked
        | .error e => .error e
        | .ok l => .ok (l.foldl (fun m p => GvkMap.insert m p.1 p.2) acc) := by
  intro vs
  induction vs with
  | nil => intro acc; rfl
  | cons v t ih =>
    intro acc
    unfold validatorsFromV1CRDAux v1CRDTrace
    cases hd : derefV1Schema v with
    | none => rfl
    | some props =>
      dsimp only
      rw [ih]
      cases v1CRDTrace group kind t with
      | panicked => rfl
      | error e => rfl
      | ok l => simp [List.foldl_cons]

theorem xrdAux_eq_trace (group kind : String) :
    ∀ (vs : List XRDVersion) (acc : GvkMap),
      validatorsFromXRDAux group kind vs acc =
        match xrdTrace group kind vs with
        | .panicked => .panicked
        | .error e => .error e
        | .ok l => .ok (l.foldl (fun m p => GvkMap.insert m p.1 p.2) acc) := by
  intro vs
  induction vs with
  | nil => intro acc; rfl
  | cons v t ih =>
    intro acc
    unfold validatorsFromXRDAux xrdTrace
    cases hd : v.schema with
    | none => rfl
    | some s =>
      dsimp only
      rw [ih]
      cases xrdTrace group kind t with
      | panicked => rfl
      | error e => rfl
      | ok l => simp [List.foldl_cons]

theorem buildValidators_eq_trace :
    ∀ (objs : List PkgObject) (acc : GvkMap),
      buildValidators objs acc =
        match validatorTrace objs with
        | .panicked => .panicked
        | .error e => .error e
        | .ok l => .ok (l.foldl (fun m p => GvkMap.insert m p.1 p.2) acc) := by
  intro objs
  induction objs with
  | nil => intro acc; rfl
  | cons o t ih =>
    intro acc
    unfold buildValidators validatorTrace
    cases o with
    | crdV1Beta1 c =>
      simp only [v1beta1CRD_eq_trace, ih]
      cases validatorTrace t with
      | panicked => rfl
      | error e => rfl
      | ok l2 => simp [List.foldl_append]
    | crdV1 c =>
      simp only [validatorsFromV1CRD, v1CRDAux_eq_trace]
      cases v1CRDTrace c.spec.group c.spec.names.kind c.spec.versions with
      | panicked => rfl
      | error e => rfl
      | ok l =>
        simp only [ih]
        cases validatorTrace t with
        | panicked => rfl
        | error e => rfl
        | ok l2 => simp [List.foldl_append]
    | xrdV1Beta1 x =>
      simp only [validatorsFromV1Beta1XRD, xrdAux_eq_trace]
      cases xrdTrace x.spec.group x.spec.names.kind x.spec.versions with
      | panicked => rfl
      | error e => rfl
      | ok l =>
        simp only [ih]
        cases validatorTrace t with
        | panicked => rfl
        | error e => rfl
        | ok l2 => simp [List.foldl_append]
    | xrdV1 x =>
      simp only [validatorsFromV1XRD, xrdAux_eq_trace]
      cases xrdTrace x.spec.group x.spec.names.kind x.spec.versions with
      | panicked => rfl
      | error e => rfl
      | ok l =>
        simp only [ih]
        cases validatorTrace t with
        | panicked => rfl
        | error e => rfl
        | ok l2 => simp [List.foldl_append]
    | unknown tag => rfl

theorem v1CRDTrace_ok_of_all (group kind : String) :
    ∀ vs : List V1CRDVersion,
      vs.all (fun v => (derefV1Schema v).isSome) = true →
      ∃ l, v1CRDTrace group kind vs = .ok l := by
  intro vs
  induction vs with
  | nil => intro _; exact ⟨[], rfl⟩
  | cons v t ih =>
    intro h
    rw [List.all_cons, Bool.and_eq_true] at h
    obtain ⟨l, hl⟩ := ih h.2
    cases hd : derefV1Schema v with
    | none => rw [hd] at h; exact absurd h.1 (by simp)
    | some props => exact ⟨_, by unfold v1CRDTrace; rw [hd, hl]⟩

theorem xrdTrace_ok_of_all (group kind : String) :
    ∀ vs : List XRDVersion,
      vs.all (fun v => v.schema.isSome) = true →
      ∃ l, xrdTrace group kind vs = .ok l := by
  intro vs
  induction vs with
  | nil => intro _; exact ⟨[], rfl⟩
  | cons v t ih =>
    intro h
    rw [List.all_cons, Bool.and_eq_true] at h
    obtain ⟨l, hl⟩ := ih h.2
    cases hd : v.schema with
    | none => rw [hd] at h; exact absurd h.1 (by simp)
    | some s => exact ⟨_, by unfold xrdTrace; rw [hd, hl]⟩

theorem v1CRDTrace_no_error (group kind : String) :
    ∀ (vs : List V1CRDVersion) (e : MarshalError),
      v1CRDTrace group kind vs ≠ .error e := by
  intro vs
  induction vs with
  | nil => intro e hc; exact BuildResult.noConfusion hc
  | cons v t ih =>
    intro e
    unfold v1CRDTrace
    cases derefV1Schema v with
    | none => intro hc; exact BuildResult.noConfusion hc
    | some props =>
      dsimp only
      cases ht : v1CRDTrace group kind t with
      | panicked => intro hc; exact BuildResult.noConfusion hc
      | error e2 => exact absurd ht (by intro hc; exact ih e2 hc)
      | ok l => intro hc; exact BuildResult.noConfusion hc

theorem xrdTrace_no_error (group kind : String) :
    ∀ (vs : List XRDVersion) (e : MarshalError),
      xrdTrace group kind vs ≠ .error e := by
  intro vs
  induction vs with
  | nil => intro e hc; exact BuildResult.noConfusion hc
  | cons v t ih =>
    intro e
    unfold xrdTrace
    cases v.schema with
    | none => intro hc; exact BuildResult.noConfusion hc
    | some s =>
      dsimp only
      cases ht : xrdTrace group kind t with
      | panicked => intro hc; exact BuildResult.noConfusion hc
      | error e2 => exact absurd ht (by intro hc; exact ih e2 hc)
      | ok l => intro hc; exact BuildResult.noConfusion hc

theorem validatorTrace_unknown :
    ∀ (objs : List PkgObject), (∃ tag, PkgObject.unknown tag ∈ objs) →
      validatorTrace objs = .panicked ∨
      validatorTrace objs = .error .objectNotKnownType := by
  intro objs
  induction objs with
  | nil => rintro ⟨tag, h⟩; simp at h
  | cons o t ih =>
    rintro ⟨tag, h⟩
    unfold validatorTrace
    cases o with
    | unknown tg => right; rfl
    | crdV1Beta1 c =>
      have ht : ∃ tg, PkgObject.unknown tg ∈ t := by
        rcases List.mem_cons.mp h with h1 | h2
        · simp at h1
        · exact ⟨tag, h2⟩
      dsimp only
      rcases ih ht with hv | hv <;> rw [hv]
      · left; rfl
      · right; rfl
    | crdV1 c =>
      have ht : ∃ tg, PkgObject.unknown tg ∈ t := by
        rcases List.mem_cons.mp h with h1 | h2
        · simp at h1
        · exact ⟨tag, h2⟩
      dsimp only
      cases hr : v1CRDTrace c.spec.group c.spec.names.kind c.spec.versions with
      | panicked => left; rfl
      | error e => exact absurd hr (v1CRDTrace_no_error _ _ _ e)
      | ok l =>
        rcases ih ht with hv | hv <;> rw [hv]
        · left; rfl
        · right; rfl
    | xrdV1Beta1 x =>
      have ht : ∃ tg, PkgObject.unknown tg ∈ t := by
        rcases List.mem_cons.mp h with h1 | h2
        · simp at h1
        · exact ⟨tag, h2⟩
      dsimp only
      cases hr : xrdTrace x.spec.group x.spec.names.kind x.spec.versions with
      | panicked => left; rfl
      | error e => exact absurd hr (xrdTrace_no_error _ _ _ e)
      | ok l =>
        rcases ih ht with hv | hv <;> rw [hv]
        · left; rfl
        · right; rfl
    | xrdV1 x =>
      have ht : ∃ tg, PkgObject.unknown tg ∈ t := by
        rcases List.mem_cons.mp h with h1 | h2
        · simp at h1
        · exact ⟨tag, h2⟩
      dsimp only
      cases hr : xrdTrace x.spec.group x.spec.names.kind x.spec.versions with
      | panicked => left; rfl
      | error e => exact absurd hr (xrdTrace_no_error _ _ _ e)
      | ok l =>
        rcases ih ht with hv | hv <;> rw [hv]
        · left; rfl
        · right; rfl

theorem validatorTrace_error_of_unknown :
    ∀ (objs : List PkgObject), (∃ tag, PkgObject.unknown tag ∈ objs) →
      (∀ o ∈ objs, panicFree o = true) →
      validatorTrace objs = .error .objectNotKnownType := by
  intro objs
  induction objs with
  | nil => rintro ⟨tag, h⟩; simp at h
  | cons o t ih =>
    rintro ⟨tag, h⟩ hpf
    have hpft : ∀ o2 ∈ t, panicFree o2 = true :=
      fun o2 ho2 => hpf o2 (List.mem_cons_of_mem _ ho2)
    unfold validatorTrace
    cases o with
    | unknown tg => rfl
    | crdV1Beta1 c =>
      have ht : ∃ tg, PkgObject.unknown tg ∈ t := by
        rcases List.mem_cons.mp h with h1 | h2
        · simp at h1
        · exact ⟨tag, h2⟩
      dsimp only
      rw [ih ht hpft]
    | crdV1 c =>
      have ht : ∃ tg, PkgObject.unknown tg ∈ t := by
        rcases List.mem_cons.mp h with h1 | h2
        · simp at h1
        · exact ⟨tag, h2⟩
      have hall : c.spec.versions.all (fun v => (derefV1Schema v).isSome) = true :=
        hpf (PkgObject.crdV1 c) (List.mem_cons_self _ _)
      obtain ⟨l, hl⟩ :=
        v1CRDTrace_ok_of_all c.spec.group c.spec.names.kind c.spec.versions hall
      dsimp only
      rw [hl, ih ht hpft]
    | xrdV1Beta1 x =>
      have ht : ∃ tg, PkgObject.unknown tg ∈ t := by
        rcases List.mem_cons.mp h with h1 | h2
        · simp at h1
        · exact ⟨tag, h2⟩
      have hall : x.spec.versions.all (fun v => v.schema.isSome) = true :=
        hpf (PkgObject.xrdV1Beta1 x) (List.mem_cons_self _ _)
      obtain ⟨l, hl⟩ :=
        xrdTrace_ok_of_all x.spec.group x.spec.names.kind x.spec.versions hall
      dsimp only
      rw [hl, ih ht hpft]
    | xrdV1 x =>
      have ht : ∃ tg, PkgObject.unknown tg ∈ t := by
        rcases List.mem_cons.mp h with h1 | h2
        · simp at h1
        · exact ⟨tag, h2⟩
      have hall : x.spec.versions.all (fun v => v.schema.isSome) = true :=
        hpf (PkgObject.xrdV1 x) (List.mem_cons_self _ _)
      obtain ⟨l, hl⟩ :=
        xrdTrace_ok_of_all x.spec.group x.spec.names.kind x.spec.versions hall
      dsimp only
      rw [hl, ih ht hpft]

/-! ### Characterization of the path split and of the directory walk -/

theorem splitOnChar_ne_nil (sep : Char) :
    ∀ l : List Char, splitOnChar sep l ≠ [] := by
  intro l
  cases l with
  | nil => simp [splitOnChar]
  | cons c rest =>
    unfold splitOnChar
    cases splitOnChar sep rest with
    | nil => by_cases h : c = sep <;> simp [h]
    | cons hh tt => by_cases h : c = sep <;> simp [h]

theorem splitOnChar_of_not_mem (sep : Char) :
    ∀ l : List Char, sep ∉ l → splitOnChar sep l = [l] := by
  intro l
  induction l with
  | nil => intro _; rfl
  | cons c rest ih =>
    intro h
    rw [List.mem_cons, not_or] at h
    have hc : ¬ c = sep := fun hh => h.1 hh.symm
    unfold splitOnChar
    rw [ih h.2]
    simp [hc]

theorem splitOnChar_cons (sep c : Char) (rest : List Char) :
    splitOnChar sep (c :: rest) =
      match splitOnChar sep rest with
      | [] => if c = sep then [[], []] else [[c]]
      | h :: t => if c = sep then [] :: h :: t else (c :: h) :: t := rfl

theorem splitOnChar_append_sep (sep : Char) :
    ∀ d v : List Char, sep ∉ d →
      splitOnChar sep (d ++ sep :: v) = d :: splitOnChar sep v := by
  intro d
  induction d with
  | nil =>
    intro v _
    show splitOnChar sep (sep :: v) = [] :: splitOnChar sep v
    obtain ⟨hh, tt, hs⟩ := List.exists_cons_of_ne_nil (splitOnChar_ne_nil sep v)
    rw [splitOnChar_cons, hs]
    simp [← hs]
  | cons c d' ih =>
    intro v h
    rw [List.mem_cons, not_or] at h
    have hc : ¬ c = sep := fun hh => h.1 hh.symm
    show splitOnChar sep (c :: (d' ++ sep :: v)) = (c :: d') :: splitOnChar sep v
    rw [splitOnChar_cons, ih v h.2]
    simp [hc]

theorem splitOnChar_sep_free (sep : Char) :
    ∀ l : List Char, ∀ p ∈ splitOnChar sep l, sep ∉ p := by
  intro l
  induction l with
  | nil =>
    intro p hp
    simp [splitOnChar] at hp
    simp [hp]
  | cons c rest ih =>
    intro p hp
    obtain ⟨hh, tt, hs⟩ := List.exists_cons_of_ne_nil (splitOnChar_ne_nil sep rest)
    rw [splitOnChar_cons, hs] at hp
    dsimp only at hp
    by_cases hc : c = sep
    · rw [if_pos hc] at hp
      rcases List.mem_cons.mp hp with h1 | h2
      · simp [h1]
      · exact ih p (hs ▸ h2)
    · rw [if_neg hc] at hp
      rcases List.mem_cons.mp hp with h1 | h2
      · subst h1
        rw [List.mem_cons, not_or]
        refine ⟨fun hh2 => hc hh2.symm, ?_⟩
        exact ih hh (hs ▸ List.mem_cons_self hh tt)
      · exact ih p (hs ▸ List.mem_cons_of_mem hh h2)

/-- Joining the pieces back with the separator. -/
def joinWithChar (sep : Char) : List (List Char) → List Char
  | [] => []
  | [p] => p
  | p :: q :: t => p ++ sep :: joinWithChar sep (q :: t)

theorem joinWithChar_splitOnChar (sep : Char) :
    ∀ l : List Char, joinWithChar sep (splitOnChar sep l) = l := by
  intro l
  induction l with
  | nil => rfl
  | cons c rest ih =>
    obtain ⟨hh, tt, hs⟩ := List.exists_cons_of_ne_nil (splitOnChar_ne_nil sep rest)
    rw [splitOnChar_cons, hs]
    dsimp only
    by_cases hc : c = sep
    · rw [if_pos hc]
      show joinWithChar sep ([] :: hh :: tt) = c :: rest
      unfold joinWithChar
      rw [← hs, ih, hc]
      rfl
    · rw [if_neg hc]
      cases tt with
      | nil =>
        show joinWithChar sep [c :: hh] = c :: rest
        rw [hs] at ih
        unfold joinWithChar at ih ⊢
        rw [ih]
      | cons q t' =>
        show joinWithChar sep ((c :: hh) :: q :: t') = c :: rest
        rw [hs] at ih
        unfold joinWithChar at ih ⊢
        rw [List.cons_append, ih]

theorem splitOnChar_len2_iff (sep : Char) (l : List Char) :
    (splitOnChar sep l).length = 2 ↔
      ∃ d v : List Char, sep ∉ d ∧ sep ∉ v ∧ l = d ++ sep :: v := by
  constructor
  · intro h
    rcases hs : splitOnChar sep l with _ | ⟨a, _ | ⟨b, _ | ⟨c, t⟩⟩⟩
    · rw [hs] at h; simp at h
    · rw [hs] at h; simp at h
    · refine ⟨a, b, ?_, ?_, ?_⟩
      · exact splitOnChar_sep_free sep l a (by rw [hs]; simp)
      · exact splitOnChar_sep_free sep l b (by rw [hs]; simp)
      · have hj := joinWithChar_splitOnChar sep l
        rw [hs] at hj
        unfold joinWithChar at hj
        exact hj.symm
    · rw [hs] at h; simp at h
  · rintro ⟨d, v, hd, hv, rfl⟩
    rw [splitOnChar_append_sep sep d v hd, splitOnChar_of_not_mem sep v hv]
    rfl

theorem foldl_overwrite {α β : Type} (f : α → Bool) (g : α → β) (l : List α)
    (d : β) :
    l.foldl (fun acc x => if f x then g x else acc) d =
      ((l.filter f).getLast?.map g).getD d := by
  induction l using List.reverseRecOn with
  | nil => rfl
  | append_singleton l x ih =>
    rw [List.foldl_append, List.filter_append]
    by_cases hx : f x
    · simp [hx, List.getLast?_concat]
    · simpa [hx] using ih

theorem acquireFromDir_fold :
    ∀ (entries : List DirEntry) (acc : List String × String),
      entries.foldl
        (fun acc e =>
          if e.isDir then acc
          else if stringHasDigestMarker (filepathBase e.path) then
            (acc.1, filepathBase e.path)
          else (acc.1 ++ [e.path], acc.2)) acc =
      (acc.1 ++
        (entries.filter (fun e =>
          !e.isDir && !stringHasDigestMarker (filepathBase e.path))).map
            (fun e => e.path),
       entries.foldl (fun d e =>
         if !e.isDir && stringHasDigestMarker (filepathBase e.path) then
           filepathBase e.path
         else d) acc.2) := by
  intro entries
  induction entries with
  | nil => intro acc; simp
  | cons e t ih =>
    intro acc
    simp only [List.foldl_cons, List.filter_cons]
    by_cases hd : e.isDir
    · rw [ih]
      simp [hd]
    · by_cases hm : stringHasDigestMarker (filepathBase e.path)
      · rw [ih]
        simp [hd, hm]
      · rw [ih]
        simp [hd, hm]

/-! ### Claims -/

/-- C8: for every registry and repoPath, the derived package name equals
repoPath when the registry equals the default public registry host
"index.docker.io", and registry ++ "/" ++ repoPath for every other
registry string. -/
theorem claim_C8_derive_pkg_name (registry repo : String) :
    derivePkgName registry repo =
      if registry = "index.docker.io" then repo
      else registry ++ "/" ++ repo := by
  unfold derivePkgName dockerhub
  by_cases h : registry = "index.docker.io"
  · simp [h]
  · simp [h]

/-- The dependency conversion as the specification states it: exactly one
reference set determines the package reference and type; both or neither
set yields an empty package reference and an unset type, with the version
constraint copied in every case. -/
def convertDependencySpec (d : MetaDependency) : Dependency :=
  match d.provider, d.configuration with
  | some p, none =>
    { package := p, type := some PackageType.provider, constraints := d.version }
  | none, some c =>
    { package := c, type := some PackageType.configuration,
      constraints := d.version }
  | _, _ => { package := "", type := none, constraints := d.version }

/-- C2: the extractor output has the same length and order as the source
dependency list, with each entry computed element-wise exactly as the
specification describes (provider/configuration oneof, zero-value entry
with copied constraint when both or neither reference is set). -/
theorem claim_C2_dependency_extraction (kind : String)
    (deps : List MetaDependency) :
    determineDeps (MetaObject.pkg kind deps) =
      .ok (deps.map convertDependencySpec) ∧
    (deps.map convertDependencySpec).length = deps.length ∧
    ∀ d : MetaDependency, convertToV1beta1 d = convertDependencySpec d := by
  have hconv : ∀ d : MetaDependency,
      convertToV1beta1 d = convertDependencySpec d := by
    intro d
    rcases d with ⟨p, c, ver⟩
    unfold convertToV1beta1 convertDependencySpec
    cases p <;> cases c <;> rfl
  have hmap : deps.map convertToV1beta1 = deps.map convertDependencySpec := by
    rw [funext hconv]
  exact ⟨by unfold determineDeps; dsimp only; rw [hmap], by simp, hconv⟩

/-- C4: with exactly one meta object, classification depends only on the
meta kind: kind "Configuration" selects the Configuration package type and
linter, every other kind selects the Provider package type and linter. -/
theorem claim_C4_classification (lint : LinterKind → GenericPackage → Bool)
    (gp : GenericPackage) (meta : MetaObject)
    (hm : gp.metas = [meta])
    (hl : lint (classify (MetaObject.kind meta)).2 gp = true) :
    parse lint (some gp) =
      .ok { metaObj := meta, objs := gp.objects,
            ptype := (classify (MetaObject.kind meta)).1 } ∧
    classify "Configuration" =
      (PackageType.configuration, LinterKind.configuration) ∧
    ∀ k : String, k ≠ "Configuration" →
      classify k = (PackageType.provider, LinterKind.provider) := by
  refine ⟨?_, rfl, fun k hk => ?_⟩
  · unfold parse
    dsimp only
    rw [hm]
    simp [hl]
  · unfold classify ConfigurationKind
    rw [if_neg hk]

theorem claim_C4_witness :
    parse (fun _ _ => true)
        (some { metas := [MetaObject.pkg "Configuration" []], objects := [] }) =
      .ok { metaObj := MetaObject.pkg "Configuration" [], objs := [],
            ptype :=
              (classify (MetaObject.kind (MetaObject.pkg "Configuration" []))).1 } ∧
    classify "Configuration" =
      (PackageType.configuration, LinterKind.configuration) ∧
    ∀ k : String, k ≠ "Configuration" →
      classify k = (PackageType.provider, LinterKind.provider) :=
  claim_C4_classification (fun _ _ => true)
    { metas := [MetaObject.pkg "Configuration" []], objects := [] }
    (MetaObject.pkg "Configuration" []) rfl rfl

/-- C5: with zero or more than one meta object in the decoded package, the
marshal call fails with the NotExactlyOneMeta error — for every linter
(so before linting), and through both entry points (so before dependency
extraction and validator building) — and no package value is returned. -/
theorem claim_C5_not_exactly_one_meta (lint : LinterKind → GenericPackage → Bool)
    (gp : GenericPackage) (hm : gp.metas.length ≠ 1) :
    parse lint (some gp) = .error .notExactlyOneMeta ∧
    (∀ (entries : List DirEntry) (reg repo path : String) (d v : List Char),
      path.data = d ++ '@' :: v → '@' ∉ d → '@' ∉ v →
      FromDir lint (fun _ => some gp) entries path reg repo =
        .error .notExactlyOneMeta) ∧
    (∀ reg repo ver dg : String,
      FromImage lint reg repo ver { digest := some dg, stream := some (some gp) } =
        .error .notExactlyOneMeta) := by
  have hp : parse lint (some gp) = .error .notExactlyOneMeta := by
    unfold parse
    dsimp only
    rcases hg : gp.metas with _ | ⟨m, _ | ⟨m2, t⟩⟩
    · rfl
    · rw [hg] at hm; simp at hm
    · rfl
  refine ⟨hp, fun entries reg repo path d v hpath hd hv => ?_,
    fun reg repo ver dg => ?_⟩
  · unfold FromDir stringSplitOnChar
    rw [hpath, splitOnChar_append_sep '@' d v hd,
      splitOnChar_of_not_mem '@' v hv]
    dsimp only [List.map]
    rw [hp]
  · unfold FromImage
    dsimp only
    rw [hp]

theorem claim_C5_witness :
    parse (fun _ _ => true) (some { metas := [], objects := [] }) =
      .error .notExactlyOneMeta ∧
    FromDir (fun _ _ => true) (fun _ => some { metas := [], objects := [] })
      [] "p@v" "r" "x" = .error .notExactlyOneMeta ∧
    FromImage (fun _ _ => true) "r" "x" "v"
      { digest := some "d", stream := some (some { metas := [], objects := [] }) } =
      .error .notExactlyOneMeta := by
  have h := claim_C5_not_exactly_one_meta (fun _ _ => true)
    { metas := [], objects := [] } (by decide)
  exact ⟨h.1,
    h.2.1 [] "r" "x" "p@v" ['p'] ['v'] (by decide) (by decide) (by decide),
    h.2.2 "r" "x" "v" "d"⟩

/-- C9: the v1 CRD builder dereferences each declared version's schema
pointer unconditionally: a v1 CRD version with a nil schema makes the call
panic (not return an error), and the builder is total exactly under the
precondition that every version's schema dereference succeeds. -/
theorem claim_C9_nil_schema_panic (c : V1CRD) (acc : GvkMap)
    (h : c.spec.versions.all (fun v => (derefV1Schema v).isSome) = true) :
    (∃ m, validatorsFromV1CRD c acc = .ok m) ∧
    validatorsFromV1CRD
      { spec := { group := "example.org", names := { kind := "Widget" },
                  versions := [{ name := "v1", schema := none }] } } [] =
      .panicked ∧
    ∀ e : MarshalError,
      validatorsFromV1CRD
        { spec := { group := "example.org", names := { kind := "Widget" },
                    versions := [{ name := "v1", schema := none }] } } [] ≠
        .error e := by
  have hpan : validatorsFromV1CRD
      { spec := { group := "example.org", names := { kind := "Widget" },
                  versions := [{ name := "v1", schema := none }] } } [] =
      .panicked := by decide
  refine ⟨?_, hpan, fun e hc => ?_⟩
  · obtain ⟨l, hl⟩ :=
      v1CRDTrace_ok_of_all c.spec.group c.spec.names.kind c.spec.versions h
    refine ⟨l.foldl (fun m p => GvkMap.insert m p.1 p.2) acc, ?_⟩
    unfold validatorsFromV1CRD
    rw [v1CRDAux_eq_trace, hl]
  · rw [hpan] at hc
    exact BuildResult.noConfusion hc

theorem claim_C9_witness :
    (∃ m, validatorsFromV1CRD
      { spec := { group := "g", names := { kind := "K" },
                  versions := [{ name := "v1",
                                 schema := some { openAPIV3Schema := some { id := 1 } } }] } }
      [] = .ok m) ∧
    validatorsFromV1CRD
      { spec := { group := "example.org", names := { kind := "Widget" },
                  versions := [{ name := "v1", schema := none }] } } [] =
      .panicked ∧
    ∀ e : MarshalError,
      validatorsFromV1CRD
        { spec := { group := "example.org", names := { kind := "Widget" },
                    versions := [{ name := "v1", schema := none }] } } [] ≠
        .error e :=
  claim_C9_nil_schema_panic
    { spec := { group := "g", names := { kind := "K" },
                versions := [{ name := "v1",
                               schema := some { openAPIV3Schema := some { id := 1 } } }] } }
    [] (by decide)

/-- C7: during a single building pass every (group, version, kind) key is
inserted into the one shared index; duplicate keys are overwritten with no
conflict detection, so the final index maps each key to the last validator
the pass compiled for it. -/
theorem claim_C7_last_write_wins (objs : List PkgObject)
    (l : List (GroupVersionKind × SchemaValidator))
    (hl : validatorTrace objs = .ok l) :
    buildValidators objs [] =
      .ok (l.foldl (fun m p => GvkMap.insert m p.1 p.2) []) ∧
    ∀ k : GroupVersionKind,
      GvkMap.find (l.foldl (fun m p => GvkMap.insert m p.1 p.2) []) k =
        lastVal l k := by
  refine ⟨?_, fun k => find_foldl_insert_nil l k⟩
  rw [buildValidators_eq_trace, hl]

def dupKeyObjs : List PkgObject :=
  [PkgObject.crdV1
     { spec :=
         { group := "g", names := { kind := "K" },
           versions :=
             [{ name := "v1",
                schema := some { openAPIV3Schema := some { id := 1 } } }] } },
   PkgObject.crdV1
     { spec :=
         { group := "g", names := { kind := "K" },
           versions :=
             [{ name := "v1",
                schema := some { openAPIV3Schema := some { id := 2 } } }] } }]

def dupKeyTrace : List (GroupVersionKind × SchemaValidator) :=
  [(gvk "g" "v1" "K", newV1SchemaValidator { id := 1 }),
   (gvk "g" "v1" "K", newV1SchemaValidator { id := 2 })]

theorem claim_C7_witness :
    buildValidators dupKeyObjs [] =
      .ok (dupKeyTrace.foldl (fun m p => GvkMap.insert m p.1 p.2) []) ∧
    GvkMap.find (dupKeyTrace.foldl (fun m p => GvkMap.insert m p.1 p.2) [])
      (gvk "g" "v1" "K") = lastVal dupKeyTrace (gvk "g" "v1" "K") := by
  have h := claim_C7_last_write_wins dupKeyObjs dupKeyTrace (by decide)
  exact ⟨h.1, h.2 (gvk "g" "v1" "K")⟩

/-- C1: for a v1beta1 CRD carrying a top-level validation schema, the
builder compiles that one schema and registers it for every declared
version (one index entry per version when the version names are distinct),
and the result does not depend on the per-version schemas. -/
theorem claim_C1_v1beta1_top_level (c : V1Beta1CRD)
    (val : CustomResourceValidation) (m : GvkMap)
    (hval : c.spec.validation = some val)
    (hnodup : (c.spec.versions.map (fun v => v.name)).Nodup)
    (hm : validatorsFromV1Beta1CRD c [] = .ok m) :
    m.length = c.spec.versions.length ∧
    (∀ v ∈ c.spec.versions,
      GvkMap.find m (gvk c.spec.group v.name c.spec.names.kind) =
        some (NewSchemaValidator (some val))) ∧
    ∀ (f : V1Beta1CRDVersion → Option CustomResourceValidation) (acc : GvkMap),
      validatorsFromV1Beta1CRD
        { spec :=
            { group := c.spec.group, names := c.spec.names,
              validation := c.spec.validation,
              versions :=
                c.spec.versions.map (fun v => { name := v.name, schema := f v }) } }
        acc =
      validatorsFromV1Beta1CRD c acc := by
  have htr : v1beta1CRDTrace c =
      c.spec.versions.map (fun v =>
        (gvk c.spec.group v.name c.spec.names.kind,
         NewSchemaValidator (some val))) := by
    unfold v1beta1CRDTrace
    rw [hval]
  have hkeys : ((v1beta1CRDTrace c).map Prod.fst).Nodup := by
    rw [htr, List.map_map]
    have : (Prod.fst ∘ fun v : V1Beta1CRDVersion =>
        (gvk c.spec.group v.name c.spec.names.kind,
         NewSchemaValidator (some val))) =
        (fun n => gvk c.spec.group n c.spec.names.kind) ∘
          (fun v : V1Beta1CRDVersion => v.name) := rfl
    rw [this, ← List.map_map]
    refine List.Nodup.map ?_ hnodup
    intro a b hab
    have := congrArg GroupVersionKind.version hab
    simpa [gvk] using this
  have he := v1beta1CRD_eq_trace c []
  rw [hm] at he
  have hm2 : m = (v1beta1CRDTrace c).foldl
      (fun m p => GvkMap.insert m p.1 p.2) [] := by
    injection he
  have hfold : (v1beta1CRDTrace c).foldl
      (fun m p => GvkMap.insert m p.1 p.2) [] = [] ++ v1beta1CRDTrace c :=
    foldl_insert_fresh (v1beta1CRDTrace c) [] hkeys (fun p _ => rfl)
  have hm3 : m = v1beta1CRDTrace c := by rw [hm2, hfold, List.nil_append]
  refine ⟨?_, ?_, ?_⟩
  · rw [hm3, htr, List.length_map]
  · intro v hv
    rw [hm3]
    refine find_all_same _ (NewSchemaValidator (some val)) _ ?_ ?_
    · intro p hp
      rw [htr] at hp
      obtain ⟨w, _, rfl⟩ := List.mem_map.mp hp
      rfl
    · rw [htr, List.map_map]
      exact List.mem_map.mpr ⟨v, hv, rfl⟩
  · intro f acc
    unfold validatorsFromV1Beta1CRD
    dsimp only
    rw [hval]
    dsimp only
    rw [List.foldl_map]

theorem claim_C1_witness :
    validatorsFromV1Beta1CRD
      { spec :=
          { group := "example.org", names := { kind := "Widget" },
            validation := some { openAPIV3Schema := some { id := 7 } },
            versions :=
              [{ name := "v1", schema := none },
               { name := "v2",
                 schema := some { openAPIV3Schema := some { id := 9 } } },
               { name := "v3", schema := none }] } } [] =
      .ok [(gvk "example.org" "v1" "Widget",
            NewSchemaValidator (some { openAPIV3Schema := some { id := 7 } })),
           (gvk "example.org" "v2" "Widget",
            NewSchemaValidator (some { openAPIV3Schema := some { id := 7 } })),
           (gvk "example.org" "v3" "Widget",
            NewSchemaValidator (some { openAPIV3Schema := some { id := 7 } }))] ∧
    ([(gvk "example.org" "v1" "Widget",
       NewSchemaValidator (some { openAPIV3Schema := some { id := 7 } })),
      (gvk "example.org" "v2" "Widget",
       NewSchemaValidator (some { openAPIV3Schema := some { id := 7 } })),
      (gvk "example.org" "v3" "Widget",
       NewSchemaValidator (some { openAPIV3Schema := some { id := 7 } }))] :
        GvkMap).length = 3 ∧
    GvkMap.find
      [(gvk "example.org" "v1" "Widget",
        NewSchemaValidator (some { openAPIV3Schema := some { id := 7 } })),
       (gvk "example.org" "v2" "Widget",
        NewSchemaValidator (some { openAPIV3Schema := some { id := 7 } })),
       (gvk "example.org" "v3" "Widget",
        NewSchemaValidator (some { openAPIV3Schema := some { id := 7 } }))]
      (gvk "example.org" "v2" "Widget") =
      some (NewSchemaValidator (some { openAPIV3Schema := some { id := 7 } })) := by
  have h := claim_C1_v1beta1_top_level
    { spec :=
        { group := "example.org", names := { kind := "Widget" },
          validation := some { openAPIV3Schema := some { id := 7 } },
          versions :=
            [{ name := "v1", schema := none },
             { name := "v2",
               schema := some { openAPIV3Schema := some { id := 9 } } },
             { name := "v3", schema := none }] } }
    { openAPIV3Schema := some { id := 7 } }
    [(gvk "example.org" "v1" "Widget",
      NewSchemaValidator (some { openAPIV3Schema := some { id := 7 } })),
     (gvk "example.org" "v2" "Widget",
      NewSchemaValidator (some { openAPIV3Schema := some { id := 7 } })),
     (gvk "example.org" "v3" "Widget",
      NewSchemaValidator (some { openAPIV3Schema := some { id := 7 } }))]
    rfl (by decide) (by decide)
  refine ⟨by decide, h.1,
    h.2.1 { name := "v2", schema := some { openAPIV3Schema := some { id := 9 } } }
      (by decide)⟩

/-- C3 (counterexample to the claim as stated): with a v1 CRD whose only
version carries a nil schema placed before an unknown object, the building
pass crashes on the nil dereference instead of returning the
UnknownObjectType error. -/
theorem claim_C3_counterexample :
    buildValidators
      [PkgObject.crdV1
         { spec := { group := "g", names := { kind := "K" },
                     versions := [{ name := "v1", schema := none }] } },
       PkgObject.unknown "u"] [] = .panicked ∧
    buildValidators
      [PkgObject.crdV1
         { spec := { group := "g", names := { kind := "K" },
                     versions := [{ name := "v1", schema := none }] } },
       PkgObject.unknown "u"] [] ≠ .error .objectNotKnownType := by
  exact ⟨by decide, by decide⟩

/-- C3 (amended): when the body-object list contains an object of none of
the four recognized shapes, the building pass never returns a schema
index, and — provided no earlier object panics on a nil per-version schema
pointer — it fails with the UnknownObjectType error regardless of the
unknown object's position. -/
theorem claim_C3_unknown_object (objs : List PkgObject) (acc : GvkMap)
    (tag : String) (hmem : PkgObject.unknown tag ∈ objs) :
    (∀ m, buildValidators objs acc ≠ .ok m) ∧
    ((∀ o ∈ objs, panicFree o = true) →
      buildValidators objs acc = .error .objectNotKnownType) := by
  constructor
  · intro m hc
    rw [buildValidators_eq_trace] at hc
    rcases validatorTrace_unknown objs ⟨tag, hmem⟩ with hv | hv <;>
      rw [hv] at hc <;> exact BuildResult.noConfusion hc
  · intro hpf
    rw [buildValidators_eq_trace,
      validatorTrace_error_of_unknown objs ⟨tag, hmem⟩ hpf]

theorem claim_C3_witness :
    (∀ m, buildValidators
      [PkgObject.crdV1Beta1
         { spec := { group := "g", names := { kind := "K" },
                     validation := some { openAPIV3Schema := some { id := 3 } },
                     versions := [{ name := "v1", schema := none }] } },
       PkgObject.unknown "u"] [] ≠ .ok m) ∧
    buildValidators
      [PkgObject.crdV1Beta1
         { spec := { group := "g", names := { kind := "K" },
                     validation := some { openAPIV3Schema := some { id := 3 } },
                     versions := [{ name := "v1", schema := none }] } },
       PkgObject.unknown "u"] [] = .error .objectNotKnownType := by
  have h := claim_C3_unknown_object
    [PkgObject.crdV1Beta1
       { spec := { group := "g", names := { kind := "K" },
                   validation := some { openAPIV3Schema := some { id := 3 } },
                   versions := [{ name := "v1", schema := none }] } },
     PkgObject.unknown "u"] [] "u" (by decide)
  exact ⟨h.1, h.2 (by decide)⟩

/-- C6: in directory mode, a path that is not of the form
`<directory>@<version-tag>` (a single "@" separating two "@"-free pieces)
fails with the InvalidPath error before any filesystem access (for every
directory content and every decoder), while "foo@v1.2.3" passes the check
and "v1.2.3" becomes the output package's version field. -/
theorem claim_C6_invalid_path (lint : LinterKind → GenericPackage → Bool)
    (decode : List String → Option GenericPackage) (entries : List DirEntry)
    (path reg repo : String)
    (hbad : ¬ ∃ d v : List Char, '@' ∉ d ∧ '@' ∉ v ∧ path.data = d ++ '@' :: v) :
    FromDir lint decode entries path reg repo = .error .invalidPath ∧
    FromDir (fun _ _ => true)
      (fun _ => some { metas := [MetaObject.pkg "Provider" []], objects := [] })
      [] "foo@v1.2.3" reg repo =
      .ok { metaObj := MetaObject.pkg "Provider" [], objs := [],
            ptype := PackageType.provider, deps := [], gvkToV := [],
            depName := derivePkgName reg repo, reg := reg, sha := "",
            ver := "v1.2.3" } := by
  constructor
  · have hlen : (splitOnChar '@' path.data).length ≠ 2 := by
      intro h
      exact hbad ((splitOnChar_len2_iff '@' path.data).mp h)
    unfold FromDir stringSplitOnChar
    cases hs : splitOnChar '@' path.data with
    | nil => exact absurd hs (splitOnChar_ne_nil '@' path.data)
    | cons a t =>
      cases t with
      | nil => rfl
      | cons b t2 =>
        cases t2 with
        | nil => exact absurd (by rw [hs]; rfl) hlen
        | cons cc t3 => rfl
  · rfl

theorem claim_C6_witness :
    FromDir (fun _ _ => true) (fun _ => none) [] "noversiontag" "r" "x" =
      .error .invalidPath ∧
    FromDir (fun _ _ => true)
      (fun _ => some { metas := [MetaObject.pkg "Provider" []], objects := [] })
      [] "foo@v1.2.3" "r" "x" =
      .ok { metaObj := MetaObject.pkg "Provider" [], objs := [],
            ptype := PackageType.provider, deps := [], gvkToV := [],
            depName := derivePkgName "r" "x", reg := "r", sha := "",
            ver := "v1.2.3" } :=
  claim_C6_invalid_path (fun _ _ => true) (fun _ => none) [] "noversiontag"
    "r" "x"
    (fun ⟨d, v, hd, hv, heq⟩ =>
      absurd ((splitOnChar_len2_iff '@' "noversiontag".data).mpr ⟨d, v, hd, hv, heq⟩)
        (by decide))

/-- C10: in directory mode the stream handed to the parser consists exactly
of the walked files whose base name does not begin with "sha256:" (in walk
order); the captured digest is the base name of the last matching file, or
the empty string when none matches — in which case a marshal call still
succeeds. -/
theorem claim_C10_digest_capture (entries : List DirEntry) :
    (acquireFromDir entries).1 =
      (entries.filter (fun e =>
        !e.isDir && !stringHasDigestMarker (filepathBase e.path))).map
          (fun e => e.path) ∧
    (∀ p ∈ (acquireFromDir entries).1,
      stringHasDigestMarker (filepathBase p) = false) ∧
    (acquireFromDir entries).2 =
      ((entries.filter (fun e =>
          !e.isDir && stringHasDigestMarker (filepathBase e.path))).getLast?.map
        (fun e => filepathBase e.path)).getD "" ∧
    FromDir (fun _ _ => true)
      (fun _ => some { metas := [MetaObject.pkg "Provider" []], objects := [] })
      [{ path := "dir/pkg.yaml", isDir := false }] "foo@v1.2.3" "r" "x" =
      .ok { metaObj := MetaObject.pkg "Provider" [], objs := [],
            ptype := PackageType.provider, deps := [], gvkToV := [],
            depName := derivePkgName "r" "x", reg := "r", sha := "",
            ver := "v1.2.3" } := by
  have hfold := acquireFromDir_fold entries ([], "")
  have hfst : (acquireFromDir entries).1 =
      (entries.filter (fun e =>
        !e.isDir && !stringHasDigestMarker (filepathBase e.path))).map
          (fun e => e.path) := by
    unfold acquireFromDir
    rw [hfold]
    rfl
  refine ⟨hfst, ?_, ?_, by decide⟩
  · intro p hp
    rw [hfst] at hp
    obtain ⟨e, he, rfl⟩ := List.mem_map.mp hp
    have := (List.mem_filter.mp he).2
    rw [Bool.and_eq_true] at this
    simpa using this.2
  · unfold acquireFromDir
    rw [hfold]
    dsimp only
    exact foldl_overwrite
      (fun e => !e.isDir && stringHasDigestMarker (filepathBase e.path))
      (fun e => filepathBase e.path) entries ""

def walkExample : List DirEntry :=
  [{ path := "d/sha256:abc", isDir := false },
   { path := "d/f.yaml", isDir := false },
   { path := "d/sub", isDir := true },
   { path := "d/sha256:def", isDir := false }]

theorem claim_C10_witness :
    (acquireFromDir walkExample).1 =
      (walkExample.filter (fun e =>
        !e.isDir && !stringHasDigestMarker (filepathBase e.path))).map
          (fun e => e.path) ∧
    (acquireFromDir walkExample).2 =
      ((walkExample.filter (fun e =>
          !e.isDir && stringHasDigestMarker (filepathBase e.path))).getLast?.map
        (fun e => filepathBase e.path)).getD "" := by
  have h := claim_C10_digest_capture walkExample
  exact ⟨h.1, h.2.2.1⟩
